import Mathlib

/-
  Verification of `overviewer_core/dispatcher.py` (Minecraft-Overviewer).

  The dispatcher coordinates phased rendering work across a pool of worker
  processes.  We embed:

  * `Ov.SysState` / `Ov.renderAll` … — the dispatcher side
    (`Dispatcher.render_all` specialised to the hooks of
    `MultiprocessingDispatcher`): job enqueueing, the outstanding-jobs
    counter, backpressure draining, and the per-phase barrier
    (`finish_work`).  Worker progress (results becoming available in the
    result queue) is abstracted by an environment function `env : Nat → Nat`
    giving, for each call of `_handle_messages`, how many new results have
    arrived; quantifying over `env` covers every scheduling of the workers.
    Loops that block in Python (`while outstanding > …`) take a fuel
    argument; running out of fuel models the call still blocking.
  * `Ov.WorkerState` / `Ov.handleJob` / `Ov.workerRun` — the worker side
    (`MultiprocessingDispatcherProcess.run`), with `do_work` abstracted as a
    function parameter.
  * `Ov.ManagerState` / `Ov.setTilesetsSteps` — the publish path of
    `MultiprocessingDispatcherManager.set_tilesets`, decomposed into its
    four sequential assignments so that interleavings with the atomic
    snapshot read `get_tilesets` (`tileset_data._getvalue()`) can be
    analysed.

  A ghost trace of `Ov.Event`s is threaded through the dispatcher model to
  state temporal properties; the events record the counters at the moment
  of each dispatch and of each completed `finish_work`.
-/

namespace Ov

/-- Ghost trace events.  `dispatchEv ph d r` records that a job of phase
`ph` was put on the job queue when `dispatched = d` jobs had been
dispatched and `drained = r` results had been drained so far;
`barrierEv d r` records a `finish_work` call returning with those
counters. -/
inductive Event : Type where
  | dispatchEv (phase dispatchedBefore drainedBefore : Nat)
  | barrierEv (dispatched drained : Nat)
deriving DecidableEq

/-- A tileset as the dispatcher sees it: an identity (used by the
`list.index` lookup in `MultiprocessingDispatcher.dispatch`), the value of
`get_num_phases()`, and the work items of `iterate_work_items(p)` for each
phase.  Work items are opaque; we use `Nat`. -/
structure TileSet where
  tid : Nat
  numPhases : Nat
  phaseItems : List (List Nat)
deriving DecidableEq

/-- `tileset.iterate_work_items(p)`. -/
def TileSet.workItems (ts : TileSet) (p : Nat) : List Nat :=
  ts.phaseItems.getD p []

/-- State of a `MultiprocessingDispatcher` run.  `mTilesets`/`mVersion` are
the manager attributes `self.manager.tilesets` / `self.manager.tileset_version`
read by `dispatch` (there is a single publisher during a run, so the
local-attribute view suffices here; the two shared proxy slots are analysed
separately in `ManagerState`).  `completed` counts results the workers have
put on the result queue (always between `drained` and `dispatched`);
`envIdx` indexes the environment.  `jobQueue` records everything put on the
job queue (`none` is the shutdown sentinel).  `closeCalled` is a ghost flag
set by `closeD`, and `trace` is the ghost event trace. -/
structure SysState where
  localProcs : Nat
  mTilesets : List TileSet
  mVersion : Nat
  outstanding : Int
  dispatched : Nat
  drained : Nat
  completed : Nat
  envIdx : Nat
  jobQueue : List (Option (Nat × Nat × Nat))
  closeCalled : Bool
  trace : List Event
deriving DecidableEq

/-- State right after `MultiprocessingDispatcher.__init__` with `w` worker
processes: counter at 0, manager holding the initial `([], 0)` tileset
data, empty queues. -/
def initState (w : Nat) : SysState :=
  { localProcs := w, mTilesets := [], mVersion := 0, outstanding := 0,
    dispatched := 0, drained := 0, completed := 0, envIdx := 0,
    jobQueue := [], closeCalled := false, trace := [] }

/-- Effect of `setup_tilesets` → `manager.set_tilesets(tilesets)` on the
manager attributes: replace the list, increment the version by 1. -/
def setTilesetsLocal (tl : List TileSet) (s : SysState) : SysState :=
  { s with mTilesets := tl, mVersion := s.mVersion + 1 }

/-- Number of results one call of `_handle_messages` pulls from the result
queue: everything currently available.  The environment contributes
`env s.envIdx` newly arrived results, clamped so that workers never produce
more results than jobs were dispatched (each job yields exactly one
result). -/
def pulledResults (env : Nat → Nat) (s : SysState) : Nat :=
  min s.dispatched (s.completed + env s.envIdx) - s.drained

/-- `MultiprocessingDispatcher._handle_messages`: drain the available
results, decrementing `outstanding_jobs` once per result pulled. -/
def handleMessages (env : Nat → Nat) (s : SysState) : SysState :=
  let c := min s.dispatched (s.completed + env s.envIdx)
  { s with completed := c,
           drained := s.drained + (c - s.drained),
           outstanding := s.outstanding - ((c - s.drained : Nat) : Int),
           envIdx := s.envIdx + 1 }

/-- Python's `list.index`, returning `none` where Python raises
`ValueError`. -/
def listIndex {α : Type} [DecidableEq α] (a : α) : List α → Option Nat
  | [] => none
  | b :: l => if a = b then some 0 else (listIndex a l).map (· + 1)

/-- A `while self.outstanding_jobs > bound: self._handle_messages()` loop.
`none` means the loop is still blocked after `fuel` iterations. -/
def drainUntil (env : Nat → Nat) (bound : Int) : Nat → SysState → Option SysState
  | 0, s => if s.outstanding ≤ bound then some s else none
  | f + 1, s =>
    if s.outstanding ≤ bound then some s
    else drainUntil env bound f (handleMessages env s)

/-- Errors of the dispatcher model.  `notFound` is the `ValueError` of
`list.index` in `dispatch`; `emptyMax` is the `ValueError` of `max([])` in
`render_all`; `blocked` means a draining loop ran out of fuel (the Python
call would still be blocking). -/
inductive DErr : Type where
  | notFound
  | emptyMax
  | blocked
deriving DecidableEq

/-- The enqueue half of `MultiprocessingDispatcher.dispatch`:
`job_queue.put((version, index, workitem)); outstanding_jobs += 1`.
`ph` only feeds the ghost trace event. -/
def dispatchEnqueue (v i it ph : Nat) (s : SysState) : SysState :=
  { s with jobQueue := s.jobQueue ++ [some (v, i, it)],
           dispatched := s.dispatched + 1,
           outstanding := s.outstanding + 1,
           trace := s.trace ++ [Event.dispatchEv ph s.dispatched s.drained] }

/-- `MultiprocessingDispatcher.dispatch(tileset, workitem)`: resolve the
tileset to its index in the most recently published list (`ValueError` if
absent — the error carries the unchanged state), enqueue the stamped job,
bump the counter, then drain while `outstanding_jobs > local_procs * 10`. -/
def dispatchD (env : Nat → Nat) (fuel ph : Nat) (ts : TileSet) (it : Nat)
    (s : SysState) : Except (DErr × SysState) SysState :=
  match listIndex ts s.mTilesets with
  | none => .error (.notFound, s)
  | some i =>
    let s1 := dispatchEnqueue s.mVersion i it ph s
    match drainUntil env ((s1.localProcs * 10 : Nat) : Int) fuel s1 with
    | some s2 => .ok s2
    | none => .error (.blocked, s1)

/-- `MultiprocessingDispatcher.finish_work`: drain while
`outstanding_jobs > 0`.  On return a ghost barrier event is recorded. -/
def finishWorkD (env : Nat → Nat) (fuel : Nat) (s : SysState) :
    Except (DErr × SysState) SysState :=
  match drainUntil env 0 fuel s with
  | some t => .ok { t with trace := t.trace ++ [Event.barrierEv t.dispatched t.drained] }
  | none => .error (.blocked, s)

/-- `MultiprocessingDispatcher.close`: put one `None` sentinel on the job
queue per worker in the pool (the pool holds exactly `local_procs`
processes), then shut the manager down (ghost-flagged by `closeCalled`). -/
def closeD (s : SysState) : SysState :=
  { s with jobQueue := s.jobQueue ++ List.replicate s.localProcs none,
           closeCalled := true }

/-- Modelled from the spec: `util.roundrobin` (module `util` is not under
`src/`; spec §4.2 RoundRobinMerger).  Each round advances every live
sequence once, in input order, dropping a sequence once it is exhausted;
rounds repeat until all sequences are exhausted.  `fuel` recursion depth —
the wrapper `roundrobin` supplies enough. -/
def roundrobinAux {α : Type} : Nat → List (List α) → List α
  | 0, _ => []
  | f + 1, xss =>
    let heads := xss.filterMap List.head?
    if heads.isEmpty then [] else heads ++ roundrobinAux f (xss.map List.tail)

/-- Modelled from the spec: `util.roundrobin` — the merged sequence. -/
def roundrobin {α : Type} (xss : List (List α)) : List α :=
  roundrobinAux (xss.map List.length).sum xss

/-- The per-phase work iterators built in `render_all`: one `(tileset,
workitem)` sequence per tileset whose `num_phases` exceeds the phase. -/
def phaseIterators (tl : List TileSet) (nums : List Nat) (ph : Nat) :
    List (List (TileSet × Nat)) :=
  (tl.zip nums).filterMap fun p =>
    if ph < p.2 then some ((p.1.workItems ph).map fun it => (p.1, it)) else none

/-- The inner loop of `render_all`: dispatch every merged work item of the
current phase in order. -/
def runItems (env : Nat → Nat) (fuel ph : Nat) :
    List (TileSet × Nat) → SysState → Except (DErr × SysState) SysState
  | [], s => .ok s
  | w :: ws, s =>
    match dispatchD env fuel ph w.1 w.2 s with
    | .ok s1 => runItems env fuel ph ws s1
    | .error e => .error e

/-- The phase loop of `render_all`: per phase, dispatch the round-robin
merge of the phase's work iterators, then `finish_work()`. -/
def runPhases (env : Nat → Nat) (fuel : Nat) (tl : List TileSet)
    (nums : List Nat) : List Nat → SysState → Except (DErr × SysState) SysState
  | [], s => .ok s
  | p :: ps, s =>
    match runItems env fuel p (roundrobin (phaseIterators tl nums p)) s with
    | .error e => .error e
    | .ok s1 =>
      match finishWorkD env fuel s1 with
      | .error e => .error e
      | .ok s2 => runPhases env fuel tl nums ps s2

/-- Python's `max` over a nonempty list of naturals (`max(num_phases)`). -/
def maxList (l : List Nat) : Nat := l.foldl max 0

/-- `Dispatcher.render_all(tilesetlist, status_callback)` with the
`MultiprocessingDispatcher` hooks: `setup_tilesets` publishes the list;
`do_preprocessing` is external to the dispatcher state; `max(num_phases)`
raises `ValueError` on an empty tileset list; then the phase loop runs.
`render_all` does not call `close()`. -/
def renderAll (env : Nat → Nat) (fuel : Nat) (tl : List TileSet)
    (s : SysState) : Except (DErr × SysState) SysState :=
  match tl with
  | [] => .error (.emptyMax, setTilesetsLocal tl s)
  | _ :: _ =>
    runPhases env fuel tl (tl.map TileSet.numPhases)
      (List.range (maxList (tl.map TileSet.numPhases))) (setTilesetsLocal tl s)

/-- Worker-local cache (`MultiprocessingDispatcherProcess`): `self.tilesets`
(as tileset identities) and `self.tileset_version`. -/
structure WorkerState where
  tilesets : List Nat
  tilesetVersion : Nat
deriving DecidableEq

/-- `MultiprocessingDispatcherProcess.update_tilesets`: refresh the local
cache from the shared state (`manager.get_tilesets()` snapshot). -/
def updateTilesets (shared : List Nat × Nat) (_ws : WorkerState) : WorkerState :=
  { tilesets := shared.1, tilesetVersion := shared.2 }

/-- Message of the failed `assert tv == self.tileset_version`. -/
def assertMsg : String := "AssertionError: tv == self.tileset_version"

/-- `result = self.tilesets[ti].do_work(workitem)` (IndexError if `ti` is
out of range); `doWork` abstracts `do_work`. -/
def execJob (doWork : Nat → Nat → Nat) (ws : WorkerState) (ti it : Nat) :
    Except String (WorkerState × Nat) :=
  match ws.tilesets.get? ti with
  | some t => .ok (ws, doWork t it)
  | none => .error "IndexError: tileset index out of range"

/-- The real-job body of `MultiprocessingDispatcherProcess.run`: if the
stamped version differs from the cached one, refresh once from the shared
state and assert the versions now agree, then execute against the cache. -/
def handleJob (doWork : Nat → Nat → Nat) (shared : List Nat × Nat)
    (ws : WorkerState) (tv ti it : Nat) : Except String (WorkerState × Nat) :=
  if tv ≠ ws.tilesetVersion then
    let ws2 := updateTilesets shared ws
    if tv ≠ ws2.tilesetVersion then .error assertMsg
    else execJob doWork ws2 ti it
  else execJob doWork ws ti it

/-- The worker loop over the finite sequence of jobs this worker pulls from
the job queue (`Queue.Empty` timeouts just retry and are not modelled;
an exhausted list means no further job arrives).  A `none` sentinel makes
the loop return immediately. -/
def workerRun (doWork : Nat → Nat → Nat) (shared : List Nat × Nat) :
    WorkerState → List (Option (Nat × Nat × Nat)) → Except String (WorkerState × List Nat)
  | ws, [] => .ok (ws, [])
  | ws, none :: _ => .ok (ws, [])
  | ws, some (tv, ti, it) :: rest =>
    match handleJob doWork shared ws tv ti it with
    | .error e => .error e
    | .ok (ws2, r) =>
      match workerRun doWork shared ws2 rest with
      | .error e => .error e
      | .ok (wsf, rs) => .ok (wsf, r :: rs)

/-- `MultiprocessingDispatcherManager` state: the local attributes
`tilesets`, `tileset_version` and the two slots of the shared proxy list
`tileset_data = [list, version]`.  Tilesets appear as identities. -/
structure ManagerState where
  tilesets : List Nat
  tilesetVersion : Nat
  dataList : List Nat
  dataVer : Nat
deriving DecidableEq

/-- `set_tilesets(tilesets)` decomposed into its four sequential
assignments; the two writes to the shared proxy (`tileset_data[0] = …`,
`tileset_data[1] = …`) are separate manager operations, so a concurrent
reader can run between them. -/
def setTilesetsSteps (new : List Nat) : List (ManagerState → ManagerState) :=
  [ fun m => { m with tilesets := new },
    fun m => { m with tilesetVersion := m.tilesetVersion + 1 },
    fun m => { m with dataList := m.tilesets },
    fun m => { m with dataVer := m.tilesetVersion } ]

/-- State after the first `k` assignments of `set_tilesets(new)`. -/
def runSteps (new : List Nat) (k : Nat) (m : ManagerState) : ManagerState :=
  ((setTilesetsSteps new).take k).foldl (fun a f => f a) m

/-- `get_tilesets`: the atomic snapshot `tileset_data._getvalue()`,
returning the `(list, version)` pair in one manager call. -/
def getTilesetsM (m : ManagerState) : List Nat × Nat := (m.dataList, m.dataVer)

/-- What a reader running its atomic snapshot after the first `k`
assignments of a publish observes. -/
def readDuringPublish (m : ManagerState) (new : List Nat) (k : Nat) : List Nat × Nat :=
  getTilesetsM (runSteps new k m)

/-- Concrete environment: one result arrives before each drain attempt. -/
def env1 : Nat → Nat := fun _ => 1

/-- Concrete tileset: one phase, one work item. -/
def ts1 : TileSet := { tid := 0, numPhases := 1, phaseItems := [[42]] }

/-- A tileset distinct from `ts1`. -/
def ts2 : TileSet := { tid := 1, numPhases := 1, phaseItems := [[7]] }

/-- Concrete tileset list. -/
def tl1 : List TileSet := [ts1]

/-- Projection extracting the state from a dispatcher-model outcome. -/
def okSt : Except (DErr × SysState) SysState → SysState
  | .ok s => s
  | .error e => e.2

/-- The state produced by the concrete run `renderAll env1 5 tl1 (initState 1)`. -/
def rrOut1 : SysState := okSt (renderAll env1 5 tl1 (initState 1))

/-- Concrete published state: `tl1` published on a fresh one-worker dispatcher. -/
def st5 : SysState := setTilesetsLocal tl1 (initState 1)

/-- Concrete published state on a fresh two-worker dispatcher. -/
def st7 : SysState := setTilesetsLocal tl1 (initState 2)

/-- The state produced by the concrete call `dispatchD env1 3 0 ts1 42 st5`. -/
def dOut1 : SysState := okSt (dispatchD env1 3 0 ts1 42 st5)

/-- Concrete `do_work` function for worker examples. -/
def doW1 : Nat → Nat → Nat := fun t i => 100 * t + i

/-- Number of dispatch events in a trace. -/
def countD (tr : List Event) : Nat :=
  tr.countP fun e => match e with
    | Event.dispatchEv _ _ _ => true
    | _ => false

/-- The counter bookkeeping that `MultiprocessingDispatcher` maintains:
drained results never exceed produced results, produced results never
exceed dispatched jobs, and `outstanding_jobs` equals dispatched minus
drained. -/
def CounterInv (s : SysState) : Prop :=
  s.drained ≤ s.completed ∧ s.completed ≤ s.dispatched ∧
    s.outstanding = (s.dispatched : Int) - (s.drained : Int)

/-- `CounterInv` plus: the ghost trace records exactly the dispatched jobs. -/
def AccInv (s : SysState) : Prop :=
  CounterInv s ∧ countD s.trace = s.dispatched

/-- Every dispatch event in the trace belongs to a phase `≤ b`. -/
def TrUB (b : Nat) (tr : List Event) : Prop :=
  ∀ p dB drB, Event.dispatchEv p dB drB ∈ tr → p ≤ b

/-- No dispatch event of phase `q` occurs in the trace. -/
def NoPhase (q : Nat) (tr : List Event) : Prop :=
  ∀ dB drB, Event.dispatchEv q dB drB ∉ tr

/-- The phase-barrier property of a trace: at every dispatch event, all
earlier dispatch events belong to phases `≤` its phase, and at the first
dispatch event of each phase the dispatched and drained counters agree —
i.e. every previously dispatched job (in particular every job of every
earlier phase) had produced a drained result before the new phase began. -/
def TraceBarrier (tr : List Event) : Prop :=
  ∀ tr1 q dB drB tr2, tr = tr1 ++ Event.dispatchEv q dB drB :: tr2 →
    TrUB q tr1 ∧ (NoPhase q tr1 → dB = drB)

/-- Every recorded `finish_work` return happened with all dispatched jobs
drained (`outstanding_jobs = 0`). -/
def BarriersEq (tr : List Event) : Prop :=
  ∀ a b, Event.barrierEv a b ∈ tr → a = b

/-- Invariant holding between phases (right after a `finish_work`). -/
def BarrierInv (s : SysState) : Prop :=
  AccInv s ∧ TraceBarrier s.trace ∧ BarriersEq s.trace ∧ s.drained = s.dispatched

/-- Invariant holding while dispatching the work items of phase `q`. -/
def InvQ (q : Nat) (s : SysState) : Prop :=
  AccInv s ∧ TrUB q s.trace ∧ TraceBarrier s.trace ∧ BarriersEq s.trace ∧
    (NoPhase q s.trace → s.dispatched = s.drained)

/-- States reachable by the pooled dispatcher: from a fresh dispatcher,
by publishing a tileset list, enqueueing a job (the first half of
`dispatch`), draining once (`_handle_messages`, also the loop bodies of the
backpressure loop and of `finish_work`), or closing. -/
inductive Reach (env : Nat → Nat) : SysState → Prop
  | init (w : Nat) : Reach env (initState w)
  | publish (tl : List TileSet) {s : SysState} :
      Reach env s → Reach env (setTilesetsLocal tl s)
  | enqueue (v i it ph : Nat) {s : SysState} :
      Reach env s → Reach env (dispatchEnqueue v i it ph s)
  | drain {s : SysState} : Reach env s → Reach env (handleMessages env s)
  | closeStep {s : SysState} : Reach env s → Reach env (closeD s)

lemma tail_head_sum {α : Type} (xss : List (List α)) :
    ((xss.map List.tail).map List.length).sum + (xss.filterMap List.head?).length
      = (xss.map List.length).sum := by
  induction xss with
  | nil => simp
  | cons x t ih =>
    cases x with
    | nil => simpa using ih
    | cons a l =>
      simp only [List.map_cons, List.sum_cons, List.filterMap_cons, List.head?,
        List.tail, List.length_cons] at *
      omega

lemma heads_nil_of_sum_zero {α : Type} (xss : List (List α))
    (h : (xss.map List.length).sum = 0) : xss.filterMap List.head? = [] := by
  induction xss with
  | nil => rfl
  | cons x t ih =>
    simp only [List.map_cons, List.sum_cons] at h
    have hx : x.length = 0 := by omega
    have hx' : x = [] := List.length_eq_zero.mp hx
    subst hx'
    simpa using ih (by omega)

lemma rrAux_congr {α : Type} : ∀ (f g : Nat) (xss : List (List α)),
    (xss.map List.length).sum ≤ f → (xss.map List.length).sum ≤ g →
    roundrobinAux f xss = roundrobinAux g xss := by
  intro f
  induction f with
  | zero =>
    intro g xss hf hg
    have hz : (xss.map List.length).sum = 0 := Nat.le_zero.mp hf
    have hh : xss.filterMap List.head? = [] := heads_nil_of_sum_zero xss hz
    cases g with
    | zero => rfl
    | succ g => simp [roundrobinAux, hh]
  | succ f ih =>
    intro g xss hf hg
    by_cases hh : (xss.filterMap List.head?).isEmpty
    · cases g with
      | zero => simp [roundrobinAux, hh]
      | succ g => simp [roundrobinAux, hh]
    · have hlen : 1 ≤ (xss.filterMap List.head?).length := by
        cases hxe : xss.filterMap List.head? with
        | nil => rw [hxe] at hh; simp at hh
        | cons a t => simp [hxe]
      have hsum := tail_head_sum xss
      have hpos : 1 ≤ (xss.map List.length).sum := by omega
      cases g with
      | zero => omega
      | succ g =>
        simp only [roundrobinAux, hh, if_false, Bool.false_eq_true]
        congr 1
        exact ih g (xss.map List.tail) (by omega) (by omega)

/-- Claim C8 — Round-robin fairness (spec-modelled, `util.py` absent from
`src/`): the merged sequence advances the live sequences in fixed rotation
equal to input order (each round emits the heads of the still-live
sequences in input order, then recurses on the tails, exhausted sequences
contributing nothing), and for sequences of lengths `[3,1,2]` tagged by
their source index the emitted source order is exactly `(0,1,2,0,2,0)`. -/
theorem roundrobin_rotation :
    (∀ (α : Type) (xss : List (List α)),
      roundrobin xss =
        if (xss.filterMap List.head?).isEmpty then []
        else (xss.filterMap List.head?) ++ roundrobin (xss.map List.tail)) ∧
    roundrobin [[0, 0, 0], [1], [2, 2]] = [0, 1, 2, 0, 2, 0] := by
  constructor
  · intro α xss
    by_cases hh : (xss.filterMap List.head?).isEmpty
    · have h1 : roundrobin xss = [] := by
        unfold roundrobin
        cases hs : (xss.map List.length).sum with
        | zero => rfl
        | succ n => simp [roundrobinAux, hh]
      rw [h1, if_pos hh]
    · have hlen : 1 ≤ (xss.filterMap List.head?).length := by
        cases hxe : xss.filterMap List.head? with
        | nil => rw [hxe] at hh; simp at hh
        | cons a t => simp [hxe]
      have hsum := tail_head_sum xss
      have hpos : 1 ≤ (xss.map List.length).sum := by omega
      obtain ⟨n, hn⟩ : ∃ n, (xss.map List.length).sum = n + 1 :=
        ⟨(xss.map List.length).sum - 1, by omega⟩
      rw [if_neg (by simpa using hh)]
      unfold roundrobin
      rw [hn]
      simp only [roundrobinAux, hh, if_false, Bool.false_eq_true]
      congr 1
      exact rrAux_congr n ((xss.map List.tail).map List.length).sum
        (xss.map List.tail) (by omega) (by omega)
  · rfl

/-- Claim C10 — on the empty tileset list, `render_all` raises (Python's
`max([])` raises `ValueError`) after publishing the empty list (version
incremented, empty list installed) and before dispatching any work item
(trace and dispatch counter unchanged); it never runs to completion. -/
theorem render_all_empty_raises :
    ∀ (env : Nat → Nat) (fuel : Nat) (s0 : SysState),
      renderAll env fuel [] s0 = .error (.emptyMax, setTilesetsLocal [] s0) ∧
      (setTilesetsLocal [] s0).mVersion = s0.mVersion + 1 ∧
      (setTilesetsLocal [] s0).mTilesets = [] ∧
      (setTilesetsLocal [] s0).trace = s0.trace ∧
      (setTilesetsLocal [] s0).dispatched = s0.dispatched := by
  intro env fuel s0
  exact ⟨rfl, rfl, rfl, rfl, rfl⟩

/-- Counterexample to claim C3: with initial shared data `([], 0)`, a
reader whose atomic snapshot interleaves between the two proxy-slot writes
of `set_tilesets([7])` observes `([7], 0)` — the new list paired with the
old version — which is neither the old pair `([], 0)` nor the new pair
`([7], 1)`. -/
theorem set_tilesets_mixed_pair_cex :
    readDuringPublish ⟨[], 0, [], 0⟩ [7] 3 = ([7], 0) ∧
    (([7] : List Nat), (0 : Nat)) ≠ (([] : List Nat), (0 : Nat)) ∧
    (([7] : List Nat), (0 : Nat)) ≠ (([7] : List Nat), (1 : Nat)) := by
  exact ⟨rfl, by decide, by decide⟩

/-- Claim C3 (amended) — `set_tilesets` increments the version by exactly 1
but publishes the shared `(list, version)` pair in two separate proxy-slot
writes; the snapshot read `get_tilesets` is itself atomic, so a reader
observes the old pair before the list-slot write (interleaving points 0–2),
the new pair after the version-slot write (point 4), and the new list paired
with the old version strictly between the two writes (point 3). -/
theorem set_tilesets_two_step_publish :
    ∀ (m : ManagerState) (new : List Nat),
      readDuringPublish m new 0 = (m.dataList, m.dataVer) ∧
      readDuringPublish m new 1 = (m.dataList, m.dataVer) ∧
      readDuringPublish m new 2 = (m.dataList, m.dataVer) ∧
      readDuringPublish m new 3 = (new, m.dataVer) ∧
      readDuringPublish m new 4 = (new, m.tilesetVersion + 1) ∧
      (runSteps new 4 m).tilesetVersion = m.tilesetVersion + 1 ∧
      (runSteps new 4 m).dataList = new := by
  intro m new
  exact ⟨rfl, rfl, rfl, rfl, rfl, rfl, rfl⟩

/-- Claim C9 — `close()` puts exactly `local_procs` sentinel (`None`) jobs
on the job queue, one per worker in the pool (the pool holds `local_procs`
processes), and a worker that pulls a sentinel returns from its loop at
once, executing no further job and producing no further result. -/
theorem close_sentinels_and_worker_exit :
    ∀ (s : SysState) (doWork : Nat → Nat → Nat) (shared : List Nat × Nat)
      (ws : WorkerState) (rest : List (Option (Nat × Nat × Nat))),
      (closeD s).jobQueue = s.jobQueue ++ List.replicate s.localProcs none ∧
      (closeD s).jobQueue.count none = s.jobQueue.count none + s.localProcs ∧
      workerRun doWork shared ws (none :: rest) = .ok (ws, []) := by
  intro s doWork shared ws rest
  refine ⟨rfl, ?_, rfl⟩
  simp [closeD]

lemma execJob_ok {doWork : Nat → Nat → Nat} {w ws2 : WorkerState} {ti it r : Nat}
    (h : execJob doWork w ti it = .ok (ws2, r)) :
    ws2 = w ∧ ∃ t, w.tilesets.get? ti = some t ∧ r = doWork t it := by
  unfold execJob at h
  cases hg : w.tilesets.get? ti with
  | none => rw [hg] at h; exact absurd h (by simp)
  | some t =>
    rw [hg] at h
    injection h with h'
    injection h' with h1 h2
    exact ⟨h1.symm, t, rfl, h2.symm⟩

/-- Claim C6 — worker version reconciliation: on a real job stamped `tv`,
if `tv` equals the cached version the worker executes against its cache
without refreshing; if it differs, the worker refreshes its cache from the
shared state exactly once and executes against the refreshed cache when the
versions now agree; if the refreshed version still differs, the assertion
fails fatally (no retry).  Whenever a job is executed (`.ok`), the version
of the cache it ran against equals the job's stamped version, and the
result was computed from the cached list entry at the job's index. -/
theorem worker_version_reconciliation :
    ∀ (doWork : Nat → Nat → Nat) (shared : List Nat × Nat) (ws : WorkerState)
      (tv ti it : Nat),
      (tv = ws.tilesetVersion →
        handleJob doWork shared ws tv ti it = execJob doWork ws ti it) ∧
      (tv ≠ ws.tilesetVersion → tv = shared.2 →
        handleJob doWork shared ws tv ti it
          = execJob doWork (updateTilesets shared ws) ti it) ∧
      (tv ≠ ws.tilesetVersion → tv ≠ shared.2 →
        handleJob doWork shared ws tv ti it = .error assertMsg) ∧
      (∀ ws2 r, handleJob doWork shared ws tv ti it = .ok (ws2, r) →
        ws2.tilesetVersion = tv ∧
        ∃ t, ws2.tilesets.get? ti = some t ∧ r = doWork t it) := by
  intro doWork shared ws tv ti it
  refine ⟨?_, ?_, ?_, ?_⟩
  · intro h; simp [handleJob, h]
  · intro h1 h2
    have : tv = (updateTilesets shared ws).tilesetVersion := h2
    simp [handleJob, h1, updateTilesets, ← h2]
  · intro h1 h2
    have : tv ≠ (updateTilesets shared ws).tilesetVersion := h2
    simp [handleJob, h1, updateTilesets, h2]
  · intro ws2 r h
    unfold handleJob at h
    by_cases h1 : tv = ws.tilesetVersion
    · rw [if_neg (by simpa using h1)] at h
      obtain ⟨he, t, hg, hr⟩ := execJob_ok h
      exact ⟨by rw [he, ← h1], t, by rw [he]; exact hg, hr⟩
    · rw [if_pos (by simpa using h1)] at h
      by_cases h2 : tv = (updateTilesets shared ws).tilesetVersion
      · rw [if_neg (by simpa using h2)] at h
        obtain ⟨he, t, hg, hr⟩ := execJob_ok h
        exact ⟨by rw [he, ← h2], t, by rw [he]; exact hg, hr⟩
      · rw [if_pos (by simpa using h2)] at h
        exact absurd h (by simp)

/-- Witness for `worker_version_reconciliation`: a worker cached at version
1 receiving a job stamped 2 while the shared state holds version 2
refreshes once and executes against the refreshed cache. -/
theorem worker_version_reconciliation_witness :
    ((2 : Nat) ≠ (WorkerState.mk [9] 1).tilesetVersion) ∧
    ((2 : Nat) = (([4, 5], 2) : List Nat × Nat).2) ∧
    handleJob doW1 ([4, 5], 2) (WorkerState.mk [9] 1) 2 1 3
      = execJob doW1 (updateTilesets ([4, 5], 2) (WorkerState.mk [9] 1)) 1 3 := by
  refine ⟨by decide, by decide, ?_⟩
  exact (worker_version_reconciliation doW1 ([4, 5], 2) (WorkerState.mk [9] 1)
    2 1 3).2.1 (by decide) (by decide)

lemma listIndex_eq_none {α : Type} [DecidableEq α] {a : α} :
    ∀ {l : List α}, a ∉ l → listIndex a l = none := by
  intro l
  induction l with
  | nil => intro _; rfl
  | cons b t ih =>
    intro h
    have hne : a ≠ b := fun he => h (he ▸ List.mem_cons_self b t)
    have hnt : a ∉ t := fun ht => h (List.mem_cons_of_mem b ht)
    simp [listIndex, hne, ih hnt]

/-- Claim C7 — resolution failure is loud and atomic: dispatching a tileset
that is not in the most recently published list fails with the
`list.index` `ValueError` before anything happens; the error carries the
state unchanged, so no job was enqueued and `outstanding_jobs` did not
move. -/
theorem dispatch_unknown_source_error :
    ∀ (env : Nat → Nat) (fuel ph : Nat) (ts : TileSet) (it : Nat) (s : SysState),
      ts ∉ s.mTilesets →
      dispatchD env fuel ph ts it s = .error (.notFound, s) := by
  intro env fuel ph ts it s h
  simp [dispatchD, listIndex_eq_none h]

/-- Witness for `dispatch_unknown_source_error`: dispatching `ts2`, which
is not in the published list `[ts1]`, errors and leaves the state intact. -/
theorem dispatch_unknown_source_error_witness :
    ts2 ∉ st7.mTilesets ∧
    dispatchD env1 3 0 ts2 5 st7 = .error (.notFound, st7) := by
  exact ⟨by decide, dispatch_unknown_source_error env1 3 0 ts2 5 st7 (by decide)⟩

lemma drainUntil_ok_bound {env : Nat → Nat} {b : Int} :
    ∀ {f : Nat} {s t : SysState}, drainUntil env b f s = some t → t.outstanding ≤ b := by
  intro f
  induction f with
  | zero =>
    intro s t h
    unfold drainUntil at h
    by_cases hb : s.outstanding ≤ b
    · rw [if_pos hb] at h; injection h with h'; exact h' ▸ hb
    · rw [if_neg hb] at h; exact absurd h (by simp)
  | succ f ih =>
    intro s t h
    unfold drainUntil at h
    by_cases hb : s.outstanding ≤ b
    · rw [if_pos hb] at h; injection h with h'; exact h' ▸ hb
    · rw [if_neg hb] at h; exact ih h

lemma dispatchEnqueue_localProcs (v i it ph : Nat) (s : SysState) :
    (dispatchEnqueue v i it ph s).localProcs = s.localProcs := rfl

lemma handleMessages_localProcs (env : Nat → Nat) (s : SysState) :
    (handleMessages env s).localProcs = s.localProcs := rfl

lemma drainUntil_localProcs {env : Nat → Nat} {b : Int} :
    ∀ {f : Nat} {s t : SysState}, drainUntil env b f s = some t →
      t.localProcs = s.localProcs := by
  intro f
  induction f with
  | zero =>
    intro s t h
    unfold drainUntil at h
    by_cases hb : s.outstanding ≤ b
    · rw [if_pos hb] at h; injection h with h'; rw [← h']
    · rw [if_neg hb] at h; exact absurd h (by simp)
  | succ f ih =>
    intro s t h
    unfold drainUntil at h
    by_cases hb : s.outstanding ≤ b
    · rw [if_pos hb] at h; injection h with h'; rw [← h']
    · rw [if_neg hb] at h
      rw [ih h, handleMessages_localProcs]

/-- Claim C5 — backpressure bound: whenever `dispatch` returns, the
outstanding-jobs counter is at most `local_procs * 10` (`W * K` with the
hard-coded multiplier `K = 10`); the worker count is untouched. -/
theorem dispatch_backpressure_bound :
    ∀ (env : Nat → Nat) (fuel ph : Nat) (ts : TileSet) (it : Nat) (s t : SysState),
      dispatchD env fuel ph ts it s = .ok t →
      t.outstanding ≤ ((s.localProcs * 10 : Nat) : Int) ∧
      t.localProcs = s.localProcs := by
  intro env fuel ph ts it s t h
  unfold dispatchD at h
  cases hidx : listIndex ts s.mTilesets with
  | none => rw [hidx] at h; exact absurd h (by simp)
  | some i =>
    rw [hidx] at h
    simp only at h
    cases hdr : drainUntil env (((dispatchEnqueue s.mVersion i it ph s).localProcs * 10 : Nat) : Int)
        fuel (dispatchEnqueue s.mVersion i it ph s) with
    | none => rw [hdr] at h; exact absurd h (by simp)
    | some s2 =>
      rw [hdr] at h
      injection h with h'
      subst h'
      rw [dispatchEnqueue_localProcs] at hdr
      exact ⟨drainUntil_ok_bound hdr,
        (drainUntil_localProcs hdr).trans (dispatchEnqueue_localProcs _ _ _ _ _)⟩

/-- Witness for `dispatch_backpressure_bound`: the concrete dispatch
`dispatchD env1 3 0 ts1 42 st5` returns with the counter under the bound. -/
theorem dispatch_backpressure_bound_witness :
    dispatchD env1 3 0 ts1 42 st5 = .ok dOut1 ∧
    (dOut1.outstanding ≤ ((st5.localProcs * 10 : Nat) : Int) ∧
      dOut1.localProcs = st5.localProcs) := by
  exact ⟨rfl, dispatch_backpressure_bound env1 3 0 ts1 42 st5 dOut1 rfl⟩

/-- Counterexample to claim C2: the concrete run
`renderAll env1 5 tl1 (initState 1)` completes normally, yet `close()` was
never invoked — the ghost flag is still `false` and no shutdown sentinel
was put on the job queue.  `render_all`'s last step is the final
`finish_work()`, not `close()`. -/
theorem render_all_no_close_cex :
    renderAll env1 5 tl1 (initState 1) = .ok rrOut1 ∧
    rrOut1.closeCalled = false ∧
    (initState 1).closeCalled = false ∧
    rrOut1.jobQueue.count none = 0 := by
  exact ⟨rfl, rfl, rfl, by decide⟩

lemma handleMessages_completed (env : Nat → Nat) (s : SysState) :
    (handleMessages env s).completed = min s.dispatched (s.completed + env s.envIdx) := rfl

lemma handleMessages_drained (env : Nat → Nat) (s : SysState) :
    (handleMessages env s).drained
      = s.drained + (min s.dispatched (s.completed + env s.envIdx) - s.drained) := rfl

lemma handleMessages_outstanding (env : Nat → Nat) (s : SysState) :
    (handleMessages env s).outstanding
      = s.outstanding - ((min s.dispatched (s.completed + env s.envIdx) - s.drained : Nat) : Int) := rfl

lemma handleMessages_dispatched (env : Nat → Nat) (s : SysState) :
    (handleMessages env s).dispatched = s.dispatched := rfl

lemma handleMessages_trace (env : Nat → Nat) (s : SysState) :
    (handleMessages env s).trace = s.trace := rfl

lemma handleMessages_mTilesets (env : Nat → Nat) (s : SysState) :
    (handleMessages env s).mTilesets = s.mTilesets := rfl

lemma handleMessages_mVersion (env : Nat → Nat) (s : SysState) :
    (handleMessages env s).mVersion = s.mVersion := rfl

lemma handleMessages_jobQueue (env : Nat → Nat) (s : SysState) :
    (handleMessages env s).jobQueue = s.jobQueue := rfl

lemma handleMessages_closeCalled (env : Nat → Nat) (s : SysState) :
    (handleMessages env s).closeCalled = s.closeCalled := rfl

lemma handleMessages_drained_ge (env : Nat → Nat) (s : SysState) :
    s.drained ≤ (handleMessages env s).drained := by
  rw [handleMessages_drained]; omega

lemma handleMessages_counterInv (env : Nat → Nat) {s : SysState}
    (h : CounterInv s) : CounterInv (handleMessages env s) := by
  obtain ⟨h1, h2, h3⟩ := h
  have c1 : min s.dispatched (s.completed + env s.envIdx) ≤ s.dispatched :=
    Nat.min_le_left _ _
  have c2 : s.completed ≤ min s.dispatched (s.completed + env s.envIdx) :=
    Nat.le_min.mpr ⟨h2, Nat.le_add_right _ _⟩
  refine ⟨?_, ?_, ?_⟩ <;>
    simp only [CounterInv, handleMessages_completed, handleMessages_drained,
      handleMessages_outstanding, handleMessages_dispatched] <;> omega

lemma handleMessages_drained_eq (env : Nat → Nat) {s : SysState}
    (h : CounterInv s) (he : s.drained = s.dispatched) :
    (handleMessages env s).drained = s.drained := by
  obtain ⟨h1, h2, h3⟩ := h
  have c1 : min s.dispatched (s.completed + env s.envIdx) ≤ s.dispatched :=
    Nat.min_le_left _ _
  rw [handleMessages_drained]; omega

lemma drainUntil_spec {env : Nat → Nat} {b : Int} :
    ∀ {f : Nat} {s t : SysState}, drainUntil env b f s = some t →
      t.mTilesets = s.mTilesets ∧ t.mVersion = s.mVersion ∧
      t.dispatched = s.dispatched ∧ t.jobQueue = s.jobQueue ∧
      t.closeCalled = s.closeCalled ∧ t.trace = s.trace ∧
      s.drained ≤ t.drained ∧
      (CounterInv s → CounterInv t ∧ (s.drained = s.dispatched → t.drained = s.drained)) := by
  intro f
  induction f with
  | zero =>
    intro s t h
    unfold drainUntil at h
    by_cases hb : s.outstanding ≤ b
    · rw [if_pos hb] at h; injection h with h'; subst h'
      exact ⟨rfl, rfl, rfl, rfl, rfl, rfl, le_refl _, fun hc => ⟨hc, fun _ => rfl⟩⟩
    · rw [if_neg hb] at h; exact absurd h (by simp)
  | succ f ih =>
    intro s t h
    unfold drainUntil at h
    by_cases hb : s.outstanding ≤ b
    · rw [if_pos hb] at h; injection h with h'; subst h'
      exact ⟨rfl, rfl, rfl, rfl, rfl, rfl, le_refl _, fun hc => ⟨hc, fun _ => rfl⟩⟩
    · rw [if_neg hb] at h
      obtain ⟨e1, e2, e3, e4, e5, e6, e7, e8⟩ := ih h
      refine ⟨e1.trans (handleMessages_mTilesets env s),
        e2.trans (handleMessages_mVersion env s),
        e3.trans (handleMessages_dispatched env s),
        e4.trans (handleMessages_jobQueue env s),
        e5.trans (handleMessages_closeCalled env s),
        e6.trans (handleMessages_trace env s),
        le_trans (handleMessages_drained_ge env s) e7, ?_⟩
      intro hc
      obtain ⟨hct, himp⟩ := e8 (handleMessages_counterInv env hc)
      refine ⟨hct, fun heq => ?_⟩
      have hdr : (handleMessages env s).drained = s.drained :=
        handleMessages_drained_eq env hc heq
      have hdd : (handleMessages env s).drained = (handleMessages env s).dispatched := by
        rw [hdr, handleMessages_dispatched]; exact heq
      rw [himp hdd, hdr]

lemma deq_trace (v i it ph : Nat) (s : SysState) :
    (dispatchEnqueue v i it ph s).trace
      = s.trace ++ [Event.dispatchEv ph s.dispatched s.drained] := rfl

lemma deq_dispatched (v i it ph : Nat) (s : SysState) :
    (dispatchEnqueue v i it ph s).dispatched = s.dispatched + 1 := rfl

lemma deq_drained (v i it ph : Nat) (s : SysState) :
    (dispatchEnqueue v i it ph s).drained = s.drained := rfl

lemma deq_completed (v i it ph : Nat) (s : SysState) :
    (dispatchEnqueue v i it ph s).completed = s.completed := rfl

lemma deq_outstanding (v i it ph : Nat) (s : SysState) :
    (dispatchEnqueue v i it ph s).outstanding = s.outstanding + 1 := rfl

lemma deq_closeCalled (v i it ph : Nat) (s : SysState) :
    (dispatchEnqueue v i it ph s).closeCalled = s.closeCalled := rfl

lemma append_singleton_split {α : Type} {l l1 l2 : List α} {x e : α}
    (h : l ++ [e] = l1 ++ x :: l2) :
    (l1 = l ∧ x = e ∧ l2 = []) ∨ ∃ l2', l2 = l2' ++ [e] ∧ l = l1 ++ x :: l2' := by
  rcases List.eq_nil_or_concat l2 with h2 | ⟨L, b, h2⟩
  · subst h2
    have h3 : l ++ [e] = l1 ++ [x] := h
    obtain ⟨h5, h6⟩ := List.append_inj' h3 (by simp)
    have h7 : e = x := by injection h6
    exact Or.inl ⟨h5.symm, h7.symm, rfl⟩
  · subst h2
    rw [List.concat_eq_append] at h
    have h3 : l1 ++ x :: (L ++ [b]) = (l1 ++ x :: L) ++ [b] := by simp
    rw [h3] at h
    obtain ⟨h5, h6⟩ := List.append_inj' h (by simp)
    have h7 : e = b := by injection h6
    exact Or.inr ⟨L, by rw [List.concat_eq_append, h7], h5⟩

lemma TrUB_nil (b : Nat) : TrUB b [] := by
  intro p dB drB h
  simp at h

lemma TrUB_mono {b b' : Nat} {tr : List Event} (h : TrUB b tr) (hb : b ≤ b') :
    TrUB b' tr :=
  fun p dB drB hm => le_trans (h p dB drB hm) hb

lemma TrUB_append_dispatch {b p dB drB : Nat} {tr : List Event}
    (h : TrUB b tr) (hp : p ≤ b) :
    TrUB b (tr ++ [Event.dispatchEv p dB drB]) := by
  intro p' dB' drB' hm
  rw [List.mem_append, List.mem_singleton] at hm
  rcases hm with hm | hm
  · exact h _ _ _ hm
  · injection hm with h1 h2 h3
    exact h1 ▸ hp

lemma TrUB_append_barrier {b a c : Nat} {tr : List Event} (h : TrUB b tr) :
    TrUB b (tr ++ [Event.barrierEv a c]) := by
  intro p dB drB hm
  rw [List.mem_append, List.mem_singleton] at hm
  rcases hm with hm | hm
  · exact h _ _ _ hm
  · exact absurd hm (by simp)

lemma BEq_nil : BarriersEq [] := by
  intro a b h
  simp at h

lemma BEq_append_dispatch {p dB drB : Nat} {tr : List Event} (h : BarriersEq tr) :
    BarriersEq (tr ++ [Event.dispatchEv p dB drB]) := by
  intro a b hm
  rw [List.mem_append, List.mem_singleton] at hm
  rcases hm with hm | hm
  · exact h _ _ hm
  · exact absurd hm (by simp)

lemma BEq_append_barrier {a : Nat} {tr : List Event} (h : BarriersEq tr) :
    BarriersEq (tr ++ [Event.barrierEv a a]) := by
  intro a' b' hm
  rw [List.mem_append, List.mem_singleton] at hm
  rcases hm with hm | hm
  · exact h _ _ hm
  · injection hm with h1 h2
    rw [h1, h2]

lemma countD_append_dispatch (tr : List Event) (p dB drB : Nat) :
    countD (tr ++ [Event.dispatchEv p dB drB]) = countD tr + 1 := by
  simp [countD, List.countP_append, List.countP_cons]

lemma countD_append_barrier (tr : List Event) (a b : Nat) :
    countD (tr ++ [Event.barrierEv a b]) = countD tr := by
  simp [countD, List.countP_append, List.countP_cons]

lemma TB_nil : TraceBarrier [] := by
  intro tr1 q dB drB tr2 h
  cases tr1 <;> simp at h

lemma TB_append_dispatch {q dB drB : Nat} {tr : List Event}
    (htb : TraceBarrier tr) (hub : TrUB q tr) (hd : NoPhase q tr → dB = drB) :
    TraceBarrier (tr ++ [Event.dispatchEv q dB drB]) := by
  intro tr1 q' dB' drB' tr2 heq
  rcases append_singleton_split heq with ⟨h1, h2, h3⟩ | ⟨l2', h1, h2⟩
  · subst h1
    injection h2 with hq hdB hdrB
    subst hq; subst hdB; subst hdrB
    exact ⟨hub, hd⟩
  · exact htb tr1 q' dB' drB' l2' h2

lemma TB_append_barrier {a b : Nat} {tr : List Event} (htb : TraceBarrier tr) :
    TraceBarrier (tr ++ [Event.barrierEv a b]) := by
  intro tr1 q' dB' drB' tr2 heq
  rcases append_singleton_split heq with ⟨h1, h2, h3⟩ | ⟨l2', h1, h2⟩
  · exact absurd h2 (by simp)
  · exact htb tr1 q' dB' drB' l2' h2

lemma dispatchD_invQ {env : Nat → Nat} {fuel q : Nat} {ts : TileSet} {it : Nat}
    {s t : SysState} (h : dispatchD env fuel q ts it s = .ok t) (hi : InvQ q s) :
    InvQ q t := by
  unfold dispatchD at h
  cases hidx : listIndex ts s.mTilesets with
  | none => rw [hidx] at h; exact absurd h (by simp)
  | some i =>
    rw [hidx] at h
    simp only at h
    cases hdr : drainUntil env
        (((dispatchEnqueue s.mVersion i it q s).localProcs * 10 : Nat) : Int)
        fuel (dispatchEnqueue s.mVersion i it q s) with
    | none => rw [hdr] at h; exact absurd h (by simp)
    | some s2 =>
      rw [hdr] at h
      injection h with h'
      subst h'
      obtain ⟨⟨⟨hc1, hc2, hc3⟩, hcd⟩, hub, htb, hbe, hD⟩ := hi
      obtain ⟨e1, e2, e3, e4, e5, e6, e7, e8⟩ := drainUntil_spec hdr
      have hC1 : CounterInv (dispatchEnqueue s.mVersion i it q s) := by
        refine ⟨?_, ?_, ?_⟩ <;>
          simp only [deq_drained, deq_completed, deq_dispatched, deq_outstanding] <;>
          omega
      obtain ⟨hcs2, _⟩ := e8 hC1
      have htr2 : s2.trace = s.trace ++ [Event.dispatchEv q s.dispatched s.drained] := by
        rw [e6, deq_trace]
      refine ⟨⟨hcs2, ?_⟩, ?_, ?_, ?_, ?_⟩
      · rw [htr2, countD_append_dispatch, hcd, e3, deq_dispatched]
      · rw [htr2]; exact TrUB_append_dispatch hub (le_refl q)
      · rw [htr2]; exact TB_append_dispatch htb hub hD
      · rw [htr2]; exact BEq_append_dispatch hbe
      · intro hnp
        have hmem : Event.dispatchEv q s.dispatched s.drained ∈ s2.trace := by
          rw [htr2]
          exact List.mem_append.mpr (Or.inr (List.mem_singleton.mpr rfl))
        exact absurd hmem (hnp s.dispatched s.drained)

lemma finishWorkD_barrier {env : Nat → Nat} {fuel q : Nat} {s t : SysState}
    (h : finishWorkD env fuel s = .ok t) (hi : InvQ q s) :
    BarrierInv t ∧ TrUB q t.trace := by
  unfold finishWorkD at h
  cases hdr : drainUntil env 0 fuel s with
  | none => rw [hdr] at h; exact absurd h (by simp)
  | some u =>
    rw [hdr] at h
    injection h with h'
    subst h'
    obtain ⟨⟨hcS, hcdS⟩, hub, htb, hbe, hD⟩ := hi
    obtain ⟨e1, e2, e3, e4, e5, e6, e7, e8⟩ := drainUntil_spec hdr
    obtain ⟨hcU, _⟩ := e8 hcS
    have hob : u.outstanding ≤ 0 := drainUntil_ok_bound hdr
    have heq : u.drained = u.dispatched := by
      obtain ⟨u1, u2, u3⟩ := hcU
      omega
    refine ⟨⟨⟨hcU, ?_⟩, ?_, ?_, ?_⟩, ?_⟩
    · show countD (u.trace ++ [Event.barrierEv u.dispatched u.drained]) = u.dispatched
      rw [countD_append_barrier, e6, hcdS]
      exact e3.symm
    · show TraceBarrier (u.trace ++ [Event.barrierEv u.dispatched u.drained])
      apply TB_append_barrier
      rw [e6]; exact htb
    · show BarriersEq (u.trace ++ [Event.barrierEv u.dispatched u.drained])
      rw [heq]
      apply BEq_append_barrier
      rw [e6]; exact hbe
    · show u.drained = u.dispatched
      exact heq
    · show TrUB q (u.trace ++ [Event.barrierEv u.dispatched u.drained])
      apply TrUB_append_barrier
      rw [e6]; exact hub

lemma runItems_invQ {env : Nat → Nat} {fuel q : Nat} :
    ∀ {ws : List (TileSet × Nat)} {s t : SysState},
      runItems env fuel q ws s = .ok t → InvQ q s → InvQ q t := by
  intro ws
  induction ws with
  | nil =>
    intro s t h hi
    unfold runItems at h
    injection h with h'
    subst h'
    exact hi
  | cons w ws ih =>
    intro s t h hi
    unfold runItems at h
    cases hd : dispatchD env fuel q w.1 w.2 s with
    | error e => rw [hd] at h; exact absurd h (by simp)
    | ok s1 =>
      rw [hd] at h
      exact ih h (dispatchD_invQ hd hi)

lemma runPhases_inv {env : Nat → Nat} {fuel : Nat} {tl : List TileSet}
    {nums : List Nat} :
    ∀ {ps : List Nat} {s t : SysState},
      runPhases env fuel tl nums ps s = .ok t →
      BarrierInv s → (∀ p ∈ ps, TrUB p s.trace) → ps.Pairwise (· < ·) →
      BarrierInv t := by
  intro ps
  induction ps with
  | nil =>
    intro s t h hb _ _
    unfold runPhases at h
    injection h with h'
    subst h'
    exact hb
  | cons p ps ih =>
    intro s t h hb hub hpw
    unfold runPhases at h
    cases h1 : runItems env fuel p (roundrobin (phaseIterators tl nums p)) s with
    | error e => rw [h1] at h; exact absurd h (by simp)
    | ok s1 =>
      rw [h1] at h
      have h' : (match finishWorkD env fuel s1 with
          | Except.error e => (Except.error e : Except (DErr × SysState) SysState)
          | Except.ok s2 => runPhases env fuel tl nums ps s2) = Except.ok t := h
      cases h2 : finishWorkD env fuel s1 with
      | error e => rw [h2] at h'; exact absurd h' (by simp)
      | ok s2 =>
        rw [h2] at h'
        obtain ⟨hacc, htb, hbe, hdd⟩ := hb
        have hiq : InvQ p s :=
          ⟨hacc, hub p (List.mem_cons_self _ _), htb, hbe, fun _ => hdd.symm⟩
        have hiq1 : InvQ p s1 := runItems_invQ h1 hiq
        obtain ⟨hb2, hub2⟩ := finishWorkD_barrier h2 hiq1
        cases hpw with
        | cons hlt hpw2 =>
          have hub' : ∀ p' ∈ ps, TrUB p' s2.trace :=
            fun p' hp' => TrUB_mono hub2 (le_of_lt (hlt p' hp'))
          exact ih h' hb2 hub' hpw2

/-- Claim C1 — phase barrier: in every completed run of `render_all` on a
non-empty tileset list from a fresh dispatcher, the ghost trace satisfies
`TraceBarrier`: at every dispatch, all earlier dispatches belong to phases
`≤` its phase, and at the first dispatch of each phase every previously
dispatched job had already produced a drained (counted) result
(`dispatchedBefore = drainedBefore`).  Moreover every recorded
`finish_work` return saw `outstanding_jobs = 0` (`BarriersEq`: its
dispatched and drained counts agree — `finish_work` loops until the
counter is `≤ 0`, and the counter never goes below dispatched minus
drained), and the final state has `outstanding_jobs = 0`. -/
theorem render_all_phase_barrier :
    ∀ (env : Nat → Nat) (fuel w : Nat) (tl : List TileSet) (t : SysState),
      tl ≠ [] →
      renderAll env fuel tl (initState w) = .ok t →
      TraceBarrier t.trace ∧ BarriersEq t.trace ∧ t.outstanding = 0 := by
  intro env fuel w tl t hne h
  cases tl with
  | nil => exact absurd rfl hne
  | cons t0 ts =>
    unfold renderAll at h
    simp only at h
    have hb0 : BarrierInv (setTilesetsLocal (t0 :: ts) (initState w)) := by
      refine ⟨⟨⟨Nat.le_refl 0, Nat.le_refl 0, ?_⟩, rfl⟩, TB_nil, BEq_nil, rfl⟩
      show (0 : Int) = ((0 : Nat) : Int) - ((0 : Nat) : Int)
      decide
    have hub0 : ∀ p ∈ List.range (maxList ((t0 :: ts).map TileSet.numPhases)),
        TrUB p (setTilesetsLocal (t0 :: ts) (initState w)).trace :=
      fun p _ => TrUB_nil p
    have hbt := runPhases_inv h hb0 hub0 (List.pairwise_lt_range _)
    obtain ⟨⟨⟨hc1, hc2, hc3⟩, _⟩, htb, hbe, hdd⟩ := hbt
    exact ⟨htb, hbe, by omega⟩

/-- Witness for `render_all_phase_barrier`: the concrete run
`renderAll env1 5 tl1 (initState 1)` completes and its trace satisfies the
barrier properties. -/
theorem render_all_phase_barrier_witness :
    tl1 ≠ [] ∧
    renderAll env1 5 tl1 (initState 1) = .ok rrOut1 ∧
    (TraceBarrier rrOut1.trace ∧ BarriersEq rrOut1.trace ∧ rrOut1.outstanding = 0) := by
  exact ⟨by decide, rfl, render_all_phase_barrier env1 5 1 tl1 rrOut1 (by decide) rfl⟩

lemma dispatchD_closeCalled {env : Nat → Nat} {fuel ph : Nat} {ts : TileSet}
    {it : Nat} {s t : SysState} (h : dispatchD env fuel ph ts it s = .ok t) :
    t.closeCalled = s.closeCalled := by
  unfold dispatchD at h
  cases hidx : listIndex ts s.mTilesets with
  | none => rw [hidx] at h; exact absurd h (by simp)
  | some i =>
    rw [hidx] at h
    simp only at h
    cases hdr : drainUntil env
        (((dispatchEnqueue s.mVersion i it ph s).localProcs * 10 : Nat) : Int)
        fuel (dispatchEnqueue s.mVersion i it ph s) with
    | none => rw [hdr] at h; exact absurd h (by simp)
    | some s2 =>
      rw [hdr] at h
      injection h with h'
      subst h'
      exact ((drainUntil_spec hdr).2.2.2.2.1).trans (deq_closeCalled _ _ _ _ _)

lemma finishWorkD_closeCalled {env : Nat → Nat} {fuel : Nat} {s t : SysState}
    (h : finishWorkD env fuel s = .ok t) : t.closeCalled = s.closeCalled := by
  unfold finishWorkD at h
  cases hdr : drainUntil env 0 fuel s with
  | none => rw [hdr] at h; exact absurd h (by simp)
  | some u =>
    rw [hdr] at h
    injection h with h'
    subst h'
    exact (drainUntil_spec hdr).2.2.2.2.1

lemma runItems_closeCalled {env : Nat → Nat} {fuel ph : Nat} :
    ∀ {ws : List (TileSet × Nat)} {s t : SysState},
      runItems env fuel ph ws s = .ok t → t.closeCalled = s.closeCalled := by
  intro ws
  induction ws with
  | nil =>
    intro s t h
    unfold runItems at h
    injection h with h'
    subst h'
    rfl
  | cons w ws ih =>
    intro s t h
    unfold runItems at h
    cases hd : dispatchD env fuel ph w.1 w.2 s with
    | error e => rw [hd] at h; exact absurd h (by simp)
    | ok s1 =>
      rw [hd] at h
      exact (ih h).trans (dispatchD_closeCalled hd)

lemma runPhases_closeCalled {env : Nat → Nat} {fuel : Nat} {tl : List TileSet}
    {nums : List Nat} :
    ∀ {ps : List Nat} {s t : SysState},
      runPhases env fuel tl nums ps s = .ok t → t.closeCalled = s.closeCalled := by
  intro ps
  induction ps with
  | nil =>
    intro s t h
    unfold runPhases at h
    injection h with h'
    subst h'
    rfl
  | cons p ps ih =>
    intro s t h
    unfold runPhases at h
    cases h1 : runItems env fuel p (roundrobin (phaseIterators tl nums p)) s with
    | error e => rw [h1] at h; exact absurd h (by simp)
    | ok s1 =>
      rw [h1] at h
      have h' : (match finishWorkD env fuel s1 with
          | Except.error e => (Except.error e : Except (DErr × SysState) SysState)
          | Except.ok s2 => runPhases env fuel tl nums ps s2) = Except.ok t := h
      cases h2 : finishWorkD env fuel s1 with
      | error e => rw [h2] at h'; exact absurd h' (by simp)
      | ok s2 =>
        rw [h2] at h'
        exact ((ih h').trans (finishWorkD_closeCalled h2)).trans
          (runItems_closeCalled h1)

/-- Claim C2 (amended) — `render_all` does not call `close()`: every
completed invocation returns right after the last phase's `finish_work`
with the close flag exactly as it found it; releasing resources via
`close()` is a separate call the caller must make. -/
theorem render_all_never_calls_close :
    ∀ (env : Nat → Nat) (fuel : Nat) (tl : List TileSet) (s0 t : SysState),
      renderAll env fuel tl s0 = .ok t → t.closeCalled = s0.closeCalled := by
  intro env fuel tl s0 t h
  cases tl with
  | nil => exact absurd h (by simp [renderAll])
  | cons t0 ts =>
    unfold renderAll at h
    simp only at h
    exact (runPhases_closeCalled h).trans rfl

/-- Witness for `render_all_never_calls_close`: the concrete completed run
leaves the close flag untouched. -/
theorem render_all_never_calls_close_witness :
    renderAll env1 5 tl1 (initState 1) = .ok rrOut1 ∧
    rrOut1.closeCalled = (initState 1).closeCalled := by
  exact ⟨rfl, render_all_never_calls_close env1 5 tl1 (initState 1) rrOut1 rfl⟩

lemma reach_counterInv {env : Nat → Nat} {s : SysState} (h : Reach env s) :
    CounterInv s := by
  induction h with
  | init w =>
    refine ⟨Nat.le_refl 0, Nat.le_refl 0, ?_⟩
    show (0 : Int) = ((0 : Nat) : Int) - ((0 : Nat) : Int)
    decide
  | publish tl h ih => exact ih
  | enqueue v i it ph h ih =>
    obtain ⟨h1, h2, h3⟩ := ih
    refine ⟨?_, ?_, ?_⟩ <;>
      simp only [deq_drained, deq_completed, deq_dispatched, deq_outstanding] <;>
      omega
  | drain h ih => exact handleMessages_counterInv _ ih
  | closeStep h ih => exact ih

/-- Claim C4 — completion accounting: the counter starts at 0 on a fresh
dispatcher, each dispatch increments it by exactly 1, each
`_handle_messages` call decrements it by exactly the number of results it
pulled (one per result, `pulledResults`) while crediting those results as
drained — and in every reachable state of the pooled dispatcher the
counter is non-negative and equals dispatched jobs minus drained
results. -/
theorem outstanding_accounting :
    (∀ w, (initState w).outstanding = 0) ∧
    (∀ v i it ph s, (dispatchEnqueue v i it ph s).outstanding = s.outstanding + 1) ∧
    (∀ (env : Nat → Nat) (s : SysState),
      (handleMessages env s).outstanding
        = s.outstanding - (pulledResults env s : Int) ∧
      (handleMessages env s).drained = s.drained + pulledResults env s) ∧
    (∀ (env : Nat → Nat) (s : SysState), Reach env s →
      0 ≤ s.outstanding ∧ s.outstanding = (s.dispatched : Int) - (s.drained : Int)) := by
  refine ⟨fun w => rfl, fun v i it ph s => rfl, fun env s => ⟨rfl, rfl⟩, ?_⟩
  intro env s h
  obtain ⟨h1, h2, h3⟩ := reach_counterInv h
  exact ⟨by omega, h3⟩

/-- Witness for `outstanding_accounting`: after one dispatch and one drain
on a fresh two-worker dispatcher, the reachable-state invariant holds. -/
theorem outstanding_accounting_witness :
    0 ≤ (handleMessages env1 (dispatchEnqueue 1 0 7 0 (initState 2))).outstanding ∧
    (handleMessages env1 (dispatchEnqueue 1 0 7 0 (initState 2))).outstanding
      = ((handleMessages env1 (dispatchEnqueue 1 0 7 0 (initState 2))).dispatched : Int)
        - ((handleMessages env1 (dispatchEnqueue 1 0 7 0 (initState 2))).drained : Int) := by
  exact outstanding_accounting.2.2.2 env1 _
    (Reach.drain (Reach.enqueue 1 0 7 0 (Reach.init 2)))

end Ov
